import Mathlib

/- Shallow embedding of the lex-eval repository: the NDJSON stream parsing and
   error handling of LexLLMConnector (src/lex_eval/connectors/lex_llm_connector.py),
   the heuristic metrics of MetricsCalculator (src/lex_eval/metrics/metrics.py),
   and the composite ranking of src/tests/compare_workflows.py.

   Modelling conventions: Python floats are modelled exactly over the rationals;
   Python strings over Lean strings and char lists; a Python function that can
   raise an exception becomes an Option- or Except-valued Lean function, where
   the error constructor records which exception escaped. -/

namespace LexEval

/-- JSON values as produced by json.loads: null, booleans, numbers (a decimal
mantissa together with a power-of-ten exponent, so that every JSON numeric
literal is represented exactly), strings, arrays, and objects as key-value
lists in source order.  Duplicate keys are kept in the list; lookups take the
last occurrence, matching how Python builds a dict from repeated keys. -/
inductive Json where
  | null : Json
  | bool (b : Bool) : Json
  | num (mantissa : Int) (exp10 : Int) : Json
  | str (s : String) : Json
  | arr (elems : List Json) : Json
  | obj (fields : List (String × Json)) : Json

/-- Models Python dict lookup d.get(k) on an object decoded by json.loads:
the last binding of the key wins, matching dict construction from duplicate
keys. -/
def getField (fields : List (String × Json)) (k : String) : Option Json :=
  fields.foldl (fun acc p => if p.1 = k then some p.2 else acc) none

/-- The JSON whitespace characters (RFC 8259, as accepted by json.loads). -/
def jsonWs (c : Char) : Bool := c = ' ' || c = '\t' || c = '\n' || c = '\r'

def skipWs (l : List Char) : List Char := l.dropWhile jsonWs

def isDigitC (c : Char) : Bool := '0' ≤ c && c ≤ '9'

def digitVal (c : Char) : Nat := c.toNat - '0'.toNat

def hexVal (c : Char) : Option Nat :=
  if '0' ≤ c ∧ c ≤ '9' then some (c.toNat - '0'.toNat)
  else if 'a' ≤ c ∧ c ≤ 'f' then some (c.toNat - 'a'.toNat + 10)
  else if 'A' ≤ c ∧ c ≤ 'F' then some (c.toNat - 'A'.toNat + 10)
  else none

def lbrace : Char := Char.ofNat 123

def rbrace : Char := Char.ofNat 125

/-- Decode of a single-character JSON string escape. -/
def escChar (c : Char) : Option Char :=
  if c = '"' then some '"'
  else if c = '\\' then some '\\'
  else if c = '/' then some '/'
  else if c = 'b' then some (Char.ofNat 8)
  else if c = 'f' then some (Char.ofNat 12)
  else if c = 'n' then some '\n'
  else if c = 'r' then some '\r'
  else if c = 't' then some '\t'
  else none

def hex4 (h1 h2 h3 h4 : Char) : Option Nat := do
  let a ← hexVal h1
  let b ← hexVal h2
  let c ← hexVal h3
  let d ← hexVal h4
  pure (((a * 16 + b) * 16 + c) * 16 + d)

/-- Body of a JSON string after the opening quote: returns the decoded
characters and the input remaining after the closing quote.  Unescaped control
characters are rejected (json.loads default strict mode); surrogate pairs in
two uXXXX escapes are combined.  A lone surrogate escape is rejected here,
while Python would keep it as a lone surrogate in the str; no claim depends on
that corner. -/
def parseStrBody : Nat → List Char → Option (List Char × List Char)
  | 0, _ => none
  | fuel + 1, l =>
    match l with
    | [] => none
    | '"' :: rest => some ([], rest)
    | '\\' :: 'u' :: h1 :: h2 :: h3 :: h4 :: rest =>
      match hex4 h1 h2 h3 h4 with
      | none => none
      | some code =>
        if 0xD800 ≤ code ∧ code ≤ 0xDBFF then
          match rest with
          | '\\' :: 'u' :: g1 :: g2 :: g3 :: g4 :: rest2 =>
            match hex4 g1 g2 g3 g4 with
            | some code2 =>
              if 0xDC00 ≤ code2 ∧ code2 ≤ 0xDFFF then
                match parseStrBody fuel rest2 with
                | some (cs, rem) =>
                  some (Char.ofNat (0x10000 + (code - 0xD800) * 1024 + (code2 - 0xDC00)) :: cs, rem)
                | none => none
              else none
            | none => none
          | _ => none
        else if 0xDC00 ≤ code ∧ code ≤ 0xDFFF then none
        else
          match parseStrBody fuel rest with
          | some (cs, rem) => some (Char.ofNat code :: cs, rem)
          | none => none
    | '\\' :: e :: rest =>
      match escChar e with
      | some c =>
        match parseStrBody fuel rest with
        | some (cs, rem) => some (c :: cs, rem)
        | none => none
      | none => none
    | c :: rest =>
      if c.toNat < 32 then none
      else
        match parseStrBody fuel rest with
        | some (cs, rem) => some (c :: cs, rem)
        | none => none

def digitsToNat (ds : List Char) : Nat := ds.foldl (fun a c => a * 10 + digitVal c) 0

/-- Continuation of JSON number parsing after the integer part, consuming an
optional fraction and exponent exactly as the json.loads number regex does: a
dot or an e is consumed only when at least one digit follows it. -/
def afterInt (neg : Bool) (ip : Nat) (l : List Char) : Json × List Char :=
  let fr :=
    match l with
    | '.' :: d :: rest =>
      if isDigitC d then
        let ds := d :: rest.takeWhile isDigitC
        (ip * 10 ^ ds.length + digitsToNat ds, -(ds.length : Int), rest.dropWhile isDigitC)
      else (ip, 0, l)
    | _ => (ip, 0, l)
  let mant := fr.1
  let e10 := fr.2.1
  let l1 := fr.2.2
  let ex :=
    match l1 with
    | e :: '+' :: d :: rest =>
      if (e = 'e' ∨ e = 'E') ∧ isDigitC d then
        ((digitsToNat (d :: rest.takeWhile isDigitC) : Int), rest.dropWhile isDigitC)
      else (0, l1)
    | e :: '-' :: d :: rest =>
      if (e = 'e' ∨ e = 'E') ∧ isDigitC d then
        (-(digitsToNat (d :: rest.takeWhile isDigitC) : Int), rest.dropWhile isDigitC)
      else (0, l1)
    | e :: d :: rest =>
      if (e = 'e' ∨ e = 'E') ∧ isDigitC d then
        ((digitsToNat (d :: rest.takeWhile isDigitC) : Int), rest.dropWhile isDigitC)
      else (0, l1)
    | _ => (0, l1)
  let m : Int := if neg then -(mant : Int) else (mant : Int)
  (Json.num m (e10 + ex.1), ex.2)

/-- JSON number parsing: optional minus, then 0 or a nonzero-led digit run,
then the optional fraction and exponent.  A lone minus, or a leading dot, is
rejected, as in json.loads. -/
def parseNum (l : List Char) : Option (Json × List Char) :=
  let s := match l with
    | '-' :: rest => (true, rest)
    | _ => (false, l)
  match s.2 with
  | [] => none
  | c :: rest =>
    if c = '0' then some (afterInt s.1 0 rest)
    else if isDigitC c then
      some (afterInt s.1 (digitsToNat (c :: rest.takeWhile isDigitC)) (rest.dropWhile isDigitC))
    else none

mutual

/-- Recursive-descent JSON value parser, the core of the json.loads model.
The fuel argument only bounds nesting depth; jsonLoads supplies enough for any
input of the given length. -/
def parseVal : Nat → List Char → Option (Json × List Char)
  | 0, _ => none
  | fuel + 1, l =>
    match skipWs l with
    | [] => none
    | c :: rest =>
      if c = lbrace then
        match skipWs rest with
        | c2 :: rest2 =>
          if c2 = rbrace then some (.obj [], rest2)
          else parseMembers fuel (c2 :: rest2) []
        | [] => none
      else if c = '[' then
        match skipWs rest with
        | ']' :: rest2 => some (.arr [], rest2)
        | l2 => parseElems fuel l2 []
      else if c = '"' then
        match parseStrBody (rest.length + 1) rest with
        | some (cs, rem) => some (.str (String.mk cs), rem)
        | none => none
      else if c = 't' then
        match rest with
        | 'r' :: 'u' :: 'e' :: rem => some (.bool true, rem)
        | _ => none
      else if c = 'f' then
        match rest with
        | 'a' :: 'l' :: 's' :: 'e' :: rem => some (.bool false, rem)
        | _ => none
      else if c = 'n' then
        match rest with
        | 'u' :: 'l' :: 'l' :: rem => some (.null, rem)
        | _ => none
      else if c = '-' ∨ isDigitC c then parseNum (c :: rest)
      else none

/-- Elements of a nonempty JSON array, after the opening bracket. -/
def parseElems : Nat → List Char → List Json → Option (Json × List Char)
  | 0, _, _ => none
  | fuel + 1, l, acc =>
    match parseVal fuel l with
    | none => none
    | some (v, rest) =>
      match skipWs rest with
      | ',' :: rest2 => parseElems fuel rest2 (acc ++ [v])
      | ']' :: rest2 => some (.arr (acc ++ [v]), rest2)
      | _ => none

/-- Members of a nonempty JSON object, after the opening brace. -/
def parseMembers : Nat → List Char → List (String × Json) → Option (Json × List Char)
  | 0, _, _ => none
  | fuel + 1, l, acc =>
    match skipWs l with
    | '"' :: rest =>
      match parseStrBody (rest.length + 1) rest with
      | none => none
      | some (kcs, rem) =>
        match skipWs rem with
        | ':' :: rem2 =>
          match parseVal fuel rem2 with
          | none => none
          | some (v, rem3) =>
            match skipWs rem3 with
            | ',' :: rem4 => parseMembers fuel rem4 (acc ++ [(String.mk kcs, v)])
            | c3 :: rem4 =>
              if c3 = rbrace then some (.obj (acc ++ [(String.mk kcs, v)]), rem4)
              else none
            | [] => none
        | _ => none
    | _ => none

end

/-- Model of json.loads on one line: parse a single JSON value, allowing
surrounding whitespace and rejecting trailing data; none models a raised
json.JSONDecodeError.  Deviation from Python, irrelevant to every claim: the
nonstandard extensions NaN and Infinity are rejected. -/
def jsonLoads (l : List Char) : Option Json :=
  match parseVal (2 * l.length + 4) l with
  | some (v, rest) => if skipWs rest = [] then some v else none
  | none => none

/-! The NDJSON stream fold of LexLLMConnector.parse_ndjson_stream
    (lex_llm_connector.py lines 110 to 157). -/

/-- The mutable locals of parse_ndjson_stream before the line loop
(lex_llm_connector.py lines 121 to 125).  The chunks list collects the raw
data values appended for text_chunk events; sources, conversation_history,
conversation_id and run_id hold whatever JSON value the stream last assigned,
starting from the Python initial values empty list, empty list, empty string,
empty string. -/
structure StreamAcc where
  chunks : List Json
  sources : Json
  conversation_history : Json
  conversation_id : Json
  run_id : Json

def initAcc : StreamAcc :=
  { chunks := [], sources := .arr [], conversation_history := .arr [],
    conversation_id := .str "", run_id := .str "" }

/-- One iteration of the event dispatch (lex_llm_connector.py lines 131 to
149) on an already decoded JSON line.  none models an uncaught exception: the
AttributeError raised by calling .get on a non-dict event, or on a non-dict
data payload of a stream_end event.  An event whose tag is missing, not a
string, or not one of the four recognized tags falls through every branch and
leaves the accumulator unchanged. -/
def processEvent (acc : StreamAcc) (event : Json) : Option StreamAcc :=
  match event with
  | .obj fields =>
    match getField fields "event" with
    | some (.str t) =>
      if t = "stream_start" then
        some { acc with
          conversation_id := (getField fields "conversation_id").getD (.str ""),
          run_id := (getField fields "run_id").getD (.str "") }
      else if t = "sources" then
        some { acc with sources := (getField fields "data").getD (.arr []) }
      else if t = "text_chunk" then
        some { acc with chunks := acc.chunks ++ [(getField fields "data").getD (.str "")] }
      else if t = "stream_end" then
        match (getField fields "data").getD (.obj []) with
        | .obj dfields =>
          some { acc with
            conversation_history := (getField dfields "conversation_history").getD (.arr []) }
        | _ => none
      else some acc
    | _ => some acc
  | _ => none

/-- One loop iteration over a raw line (lex_llm_connector.py lines 127 to
131): an empty line is skipped before json.loads runs; a line that json.loads
rejects raises (none), since no try and except surrounds the call. -/
def processLine (acc : StreamAcc) (line : List Char) : Option StreamAcc :=
  if line.isEmpty then some acc
  else
    match jsonLoads line with
    | none => none
    | some e => processEvent acc e

/-- The for loop of parse_ndjson_stream over the split lines; an exception at
any line aborts the whole parse. -/
def runLines (acc : StreamAcc) : List (List Char) → Option StreamAcc
  | [] => some acc
  | l :: ls =>
    match processLine acc l with
    | none => none
    | some acc2 => runLines acc2 ls

/-- The dict returned by parse_ndjson_stream (lex_llm_connector.py lines 151
to 157): the response field is the separator-free join of the accumulated
chunks. -/
structure ParsedStream where
  conversation_id : Json
  run_id : Json
  response : String
  sources : Json
  conversation_history : Json

/-- Python str.join with the empty separator over the accumulated chunk
values; none models the TypeError that join raises on a non-string element. -/
def joinStrs : List Json → Option String
  | [] => some ""
  | .str s :: rest => (joinStrs rest).map (fun t => s ++ t)
  | _ :: _ => none

/-- The line fold followed by the construction of the result dict. -/
def parseLines (lines : List (List Char)) : Option ParsedStream :=
  match runLines initAcc lines with
  | none => none
  | some acc =>
    match joinStrs acc.chunks with
    | none => none
    | some resp =>
      some { conversation_id := acc.conversation_id, run_id := acc.run_id,
             response := resp, sources := acc.sources,
             conversation_history := acc.conversation_history }

/-- Python str.strip character class on ASCII: space, tab, newline, carriage
return, vertical tab, form feed. -/
def pyWs (c : Char) : Bool :=
  c = ' ' || c = '\t' || c = '\n' || c = '\r' || c = Char.ofNat 11 || c = Char.ofNat 12

def pyStrip (l : List Char) : List Char :=
  ((l.dropWhile pyWs).reverse.dropWhile pyWs).reverse

/-- Python str.split on a single newline: keeps empty pieces, and the split of
the empty string is the one-element list holding the empty string. -/
def splitNL : List Char → List (List Char)
  | [] => [[]]
  | c :: rest =>
    if c = '\n' then [] :: splitNL rest
    else
      match splitNL rest with
      | [] => [[c]]
      | p :: ps => (c :: p) :: ps

/-- LexLLMConnector.parse_ndjson_stream on the whole response body
(lex_llm_connector.py line 127: ndjson_text.strip().split with newline). -/
def parse_ndjson_stream (ndjson_text : String) : Option ParsedStream :=
  parseLines (splitNL (pyStrip ndjson_text.data))

/-! Specification-side readings of a stream, used to state the parsing
    claims: what each line contributes, read off the line alone. -/

/-- An event the dispatch silently ignores: a JSON object whose event field is
missing, not a string, or none of the four recognized tags. -/
def eventIgnored : Json → Bool
  | .obj fields =>
    match getField fields "event" with
    | some (.str t) =>
      !(t = "stream_start" || t = "sources" || t = "text_chunk" || t = "stream_end")
    | _ => true
  | _ => false

/-- The text fragment one NDJSON line carries: the data value of a line that
decodes to a text_chunk event, with the empty-string default for a missing
data field. -/
def lineChunk (line : List Char) : Option Json :=
  if line.isEmpty then none
  else
    match jsonLoads line with
    | some (.obj fields) =>
      match getField fields "event" with
      | some (.str t) =>
        if t = "text_chunk" then some ((getField fields "data").getD (.str "")) else none
      | _ => none
    | _ => none

/-- The ordered fragments carried by the text_chunk events of a stream. -/
def streamFragments (lines : List (List Char)) : List Json := lines.filterMap lineChunk

/-- Separator-free concatenation of a fragment list. -/
def concatAll (fs : List String) : String := fs.foldr (fun a b => a ++ b) ""

/-- The source list one NDJSON line carries: the data payload of a line that
decodes to a sources event, with the empty-list default for a missing data
field. -/
def lineSourcesData (line : List Char) : Option Json :=
  if line.isEmpty then none
  else
    match jsonLoads line with
    | some (.obj fields) =>
      match getField fields "event" with
      | some (.str t) =>
        if t = "sources" then some ((getField fields "data").getD (.arr [])) else none
      | _ => none
    | _ => none

/-- The conversation history one NDJSON line carries: the
conversation_history member of the data payload of a line that decodes to a
stream_end event whose data payload is an object. -/
def lineHistoryData (line : List Char) : Option Json :=
  if line.isEmpty then none
  else
    match jsonLoads line with
    | some (.obj fields) =>
      match getField fields "event" with
      | some (.str t) =>
        if t = "stream_end" then
          match (getField fields "data").getD (.obj []) with
          | .obj dfields => some ((getField dfields "conversation_history").getD (.arr []))
          | _ => none
        else none
      | _ => none
    | _ => none

/-- A body obtained from another by inserting blank lines anywhere. -/
inductive BlankInsertion : List (List Char) → List (List Char) → Prop
  | nil : BlankInsertion [] []
  | keep (l : List Char) {ls ls' : List (List Char)} :
      BlankInsertion ls ls' → BlankInsertion (l :: ls) (l :: ls')
  | blank {ls ls' : List (List Char)} :
      BlankInsertion ls ls' → BlankInsertion ls ([] :: ls')

/-! Pydantic validation of WorkflowResult(**result_data)
    (lex_llm_connector.py lines 14 to 33 and 103). -/

/-- The id field of Source, declared int or str. -/
inductive SourceId where
  | intId (n : Int)
  | strId (s : String)

/-- Source (lex_llm_connector.py lines 14 to 18). -/
structure SourceModel where
  id : SourceId
  title : String
  url : String

/-- ConversationMessage (lex_llm_connector.py lines 21 to 24). -/
structure ConversationMessage where
  role : String
  content : String

/-- WorkflowResult (lex_llm_connector.py lines 27 to 33). -/
structure WorkflowResult where
  conversation_id : String
  run_id : String
  response : String
  sources : List SourceModel
  conversation_history : List ConversationMessage

/-- Pydantic lax validation of a JSON number as an int: accepted exactly when
the value is integral (a fractional literal such as 2.5 is rejected). -/
def numAsInt (m e : Int) : Option Int :=
  if 0 ≤ e then some (m * 10 ^ e.toNat)
  else
    let d : Int := 10 ^ (-e).toNat
    if m % d = 0 then some (m / d) else none

/-- Pydantic validation of a str field: strings only, no coercion from other
JSON types (pydantic v2 lax mode). -/
def asStr : Json → Option String
  | .str s => some s
  | _ => none

def validateSource (j : Json) : Option SourceModel :=
  match j with
  | .obj fields => do
    let idj ← getField fields "id"
    let idv ← (match idj with
      | .num m e => (numAsInt m e).map SourceId.intId
      | .str s => some (SourceId.strId s)
      | _ => none)
    let t ← (getField fields "title").bind asStr
    let u ← (getField fields "url").bind asStr
    pure { id := idv, title := t, url := u }
  | _ => none

def validateMessage (j : Json) : Option ConversationMessage :=
  match j with
  | .obj fields => do
    let r ← (getField fields "role").bind asStr
    let c ← (getField fields "content").bind asStr
    pure { role := r, content := c }
  | _ => none

/-- WorkflowResult(**result_data): validate the parsed dict into the pydantic
model; none models a raised ValidationError. -/
def validateWorkflowResult (p : ParsedStream) : Option WorkflowResult := do
  let cid ← asStr p.conversation_id
  let rid ← asStr p.run_id
  let srcs ← (match p.sources with
    | .arr xs => xs.mapM validateSource
    | _ => none)
  let hist ← (match p.conversation_history with
    | .arr xs => xs.mapM validateMessage
    | _ => none)
  pure { conversation_id := cid, run_id := rid, response := p.response,
         sources := srcs, conversation_history := hist }

/-- Decode of a success response body inside run_workflow: the NDJSON parse
followed by the pydantic construction. -/
def decodeBody (body : String) : Option WorkflowResult :=
  (parse_ndjson_stream body).bind validateWorkflowResult

/-! The error handling of run_workflow (lex_llm_connector.py lines 89 to 108)
    and health_check (lines 198 to 210). -/

/-- Outcome of one outbound HTTP call, the external input of the connector
model: either the transport raises (httpx.RequestError for run_workflow: host
unreachable, timeout, connection reset), or the service replies with a status
code and a body. -/
inductive Transport where
  | raises (msg : String)
  | response (status : Nat) (body : String)

/-- httpx Response.raise_for_status raises HTTPStatusError unless the status
is a 2xx success. -/
def isSuccessStatus (s : Nat) : Bool := 200 ≤ s && s < 300

/-- What escapes a run_workflow call: the ConnectionError raised for
httpx.RequestError, the RuntimeError raised for httpx.HTTPStatusError, or an
exception of any other class that no handler catches (json.JSONDecodeError
from an invalid NDJSON line, pydantic ValidationError). -/
inductive RunFailure where
  | connectionError (msg : String)
  | runtimeError (msg : String)
  | uncaught

/-- LexLLMConnector.run_workflow as a function of the transport outcome: the
POST, raise_for_status, the NDJSON parse, the pydantic construction, and the
two except clauses translating httpx.RequestError and httpx.HTTPStatusError
(lex_llm_connector.py lines 89 to 108). -/
def run_workflow (base_url : String) (t : Transport) : Except RunFailure WorkflowResult :=
  match t with
  | .raises e =>
    .error (.connectionError ("Failed to connect to lex-llm at " ++ base_url ++ ": " ++ e))
  | .response status body =>
    if isSuccessStatus status then
      match decodeBody body with
      | some w => .ok w
      | none => .error .uncaught
    else .error (.runtimeError ("Workflow execution failed: " ++ body))

/-- The try block of health_check (lex_llm_connector.py lines 205 to 208): the
GET either raises or yields a response, whose status is compared to 200. -/
def healthAttempt (t : Transport) : Except String Bool :=
  match t with
  | .raises m => .error m
  | .response s _ => .ok (s == 200)

/-- LexLLMConnector.health_check: the bare except clause turns every raised
exception into the return value False, so the function is total. -/
def health_check (t : Transport) : Bool :=
  match healthAttempt t with
  | .ok b => b
  | .error _ => false

/-! The heuristic metrics of MetricsCalculator (metrics/metrics.py). -/

/-- Python str.lower on the ASCII and Latin-1 letters; the titles and
responses of this repository are Danish and English text, which this range
covers. -/
def lowerChar (c : Char) : Char :=
  if 'A' ≤ c ∧ c ≤ 'Z' then Char.ofNat (c.toNat + 32)
  else if 'À' ≤ c ∧ c ≤ 'Þ' ∧ c ≠ '×' then Char.ofNat (c.toNat + 32)
  else c

def pyLower (l : List Char) : List Char := l.map lowerChar

/-- The regex word character class of findall on backslash-w, over the ASCII
and Latin-1 range: letters, digits and underscore. -/
def isWordChar (c : Char) : Bool :=
  c.isAlphanum || c = '_' || ('À' ≤ c && c ≤ 'ÿ' && c ≠ '×' && c ≠ '÷')

theorem dropWhile_len_le (p : α → Bool) : ∀ l : List α, (l.dropWhile p).length ≤ l.length
  | [] => Nat.le_refl 0
  | c :: rest => by
    rw [List.dropWhile_cons]
    by_cases h : p c = true
    · simp only [h, if_true]
      exact Nat.le_succ_of_le (dropWhile_len_le p rest)
    · simp [h]

/-- Tokenizer loop: cur holds the reversed word characters of the token being
read; a non-word character flushes it. -/
def findWordsAux : List Char → List Char → List (List Char)
  | [], cur => if cur.isEmpty then [] else [cur.reverse]
  | c :: rest, cur =>
    if isWordChar c then findWordsAux rest (c :: cur)
    else if cur.isEmpty then findWordsAux rest []
    else cur.reverse :: findWordsAux rest []

/-- re.findall of one-or-more word characters: the maximal runs of word
characters, in order. -/
def findWords (l : List Char) : List (List Char) := findWordsAux l []

/-- re.findall of a nonempty literal pattern: the number of non-overlapping
occurrences, scanning from the left and resuming after each match. -/
def countSubstr (pat : List Char) (s : List Char) : Nat :=
  match s with
  | [] => 0
  | c :: rest =>
    if h : pat.isPrefixOf (c :: rest) ∧ pat ≠ [] then
      countSubstr pat ((c :: rest).drop pat.length) + 1
    else countSubstr pat rest
termination_by s.length
decreasing_by
  · have hlen : 1 ≤ pat.length := by
      cases hp : pat with
      | nil => exact absurd hp h.2
      | cons a as => simp
    simp only [List.length_drop, List.length_cons]
    omega
  · exact Nat.lt_succ_of_le (Nat.le_refl rest.length)

/-- re.search of a literal pattern: does the pattern occur anywhere. -/
def searchSubstr (pat : List Char) : List Char → Bool
  | [] => pat.isPrefixOf []
  | c :: rest => pat.isPrefixOf (c :: rest) || searchSubstr pat rest

/-- The lazy bracketed-span pattern: from an opening bracket, the nearest
closing bracket with no newline in between (the regex dot does not match a
newline); returns the input after the closing bracket. -/
def scanToClose : List Char → Option (List Char)
  | [] => none
  | c :: rest =>
    if c = ']' then some rest
    else if c = '\n' then none
    else scanToClose rest

theorem scanToClose_len : ∀ l l' : List Char, scanToClose l = some l' → l'.length ≤ l.length
  | [], _, h => by simp [scanToClose] at h
  | c :: rest, l', h => by
    rw [scanToClose] at h
    by_cases hc : c = ']'
    · simp only [hc, if_true] at h
      cases h
      exact Nat.le_succ_of_le (Nat.le_refl rest.length)
    · by_cases hn : c = '\n'
      · simp [hc, hn] at h
      · simp only [hc, hn, if_false] at h
        exact Nat.le_succ_of_le (scanToClose_len rest l' h)

/-- re.findall of the lazy bracketed-span pattern: the number of
non-overlapping matches; a failed opening bracket is skipped and scanning
resumes at the next character. -/
def countBracket (s : List Char) : Nat :=
  match s with
  | [] => 0
  | c :: rest =>
    if c = '[' then
      match h : scanToClose rest with
      | some rest' => countBracket rest' + 1
      | none => countBracket rest
    else countBracket rest
termination_by s.length
decreasing_by
  · exact Nat.lt_succ_of_le (scanToClose_len rest rest' h)
  · exact Nat.lt_succ_of_le (Nat.le_refl rest.length)
  · exact Nat.lt_succ_of_le (Nat.le_refl rest.length)

/-- re.search of the lazy bracketed-span pattern. -/
def searchBracket : List Char → Bool
  | [] => false
  | c :: rest =>
    if c = '[' then (scanToClose rest).isSome || searchBracket rest
    else searchBracket rest

/-- The citation count of calculate_answer_metrics (metrics.py lines 94 to
104): the sum of the findall match counts of the bracketed-span pattern and
the three Danish lexical markers, over the lowercased response. -/
def citationCount (l : List Char) : Nat :=
  countBracket l + countSubstr "ifølge".data l + countSubstr "artikel".data l
    + countSubstr "kilde".data l

/-- The citation test of calculate_faithfulness_metrics (metrics.py line 140):
re.search of the alternation of the same four patterns over the lowercased
response. -/
def citationSearch (l : List Char) : Bool :=
  searchBracket l || searchSubstr "ifølge".data l || searchSubstr "artikel".data l
    || searchSubstr "kilde".data l

/-- A source record as the metrics see it: a dict read only through
s.get(title, empty default); a missing title is the none case. -/
structure SourceRec where
  title : Option String

def getTitle (s : SourceRec) : String := s.title.getD ""

structure RetrievalMetrics where
  num_sources : Nat
  avg_source_length : ℚ
  source_diversity : ℚ

structure AnswerMetrics where
  answer_length : Nat
  citation_count : Nat
  answer_source_overlap : ℚ

structure FaithfulnessMetrics where
  has_citations : Bool
  claims_count : Nat

/-- Python single-space str.join over the title list (metrics.py line 68). -/
def joinSp : List (List Char) → List Char
  | [] => []
  | [t] => t
  | t :: ts => t ++ ' ' :: joinSp ts

/-- MetricsCalculator.calculate_retrieval_metrics (metrics.py lines 47 to
77). -/
def calculate_retrieval_metrics (sources : List SourceRec) : RetrievalMetrics :=
  if sources.isEmpty then
    { num_sources := 0, avg_source_length := 0, source_diversity := 0 }
  else
    let avg : ℚ := ((sources.map (fun s => ((getTitle s).length : ℚ))).sum) / (sources.length : ℚ)
    let all_titles := pyLower (joinSp (sources.map (fun s => (getTitle s).data)))
    let words := findWords all_titles
    let diversity : ℚ :=
      if words.isEmpty then 0 else ((words.dedup.length : ℚ) / (words.length : ℚ))
    { num_sources := sources.length, avg_source_length := avg, source_diversity := diversity }

/-- Specification-side reading of the word tokens of a source list: the word
tokens of each lowercased title, in title order. -/
def titleTokens (sources : List SourceRec) : List (List Char) :=
  (sources.map (fun s => findWords (pyLower (getTitle s).data))).flatten

/-- MetricsCalculator.calculate_answer_metrics (metrics.py lines 79 to 122).
The Python word sets are modelled as deduplicated lists; set size and set
membership coincide with dedup length and list membership. -/
def calculate_answer_metrics (response : String) (sources : List SourceRec) : AnswerMetrics :=
  let lower := pyLower response.data
  let response_words := (findWords lower).dedup
  let source_words := ((sources.map (fun s => findWords (pyLower (getTitle s).data))).flatten).dedup
  let overlap : ℚ :=
    if ¬ response_words.isEmpty ∧ ¬ source_words.isEmpty then
      ((response_words.filter (fun w => w ∈ source_words)).length : ℚ) / (response_words.length : ℚ)
    else 0
  { answer_length := response.length, citation_count := citationCount lower,
    answer_source_overlap := overlap }

/-- The fixed closed set of copula, modal and auxiliary verb forms of the
claim heuristic (metrics.py line 145). -/
def claimWords : List (List Char) :=
  ["er", "var", "har", "havde", "blev", "bliver", "kan", "skal", "vil"].map String.data

def isSentPunct (c : Char) : Bool := c = '.' || c = '!' || c = '?'

/-- re.split on runs of sentence punctuation: a maximal run of dot, bang or
question mark is one separator, and empty pieces are kept. -/
def splitSent (l : List Char) : List (List Char) :=
  match l with
  | [] => [[]]
  | c :: rest =>
    if isSentPunct c then [] :: splitSent (rest.dropWhile isSentPunct)
    else
      match splitSent rest with
      | [] => [[c]]
      | p :: ps => (c :: p) :: ps
termination_by l.length
decreasing_by
  · exact Nat.lt_succ_of_le (dropWhile_len_le isSentPunct rest)
  · exact Nat.lt_succ_of_le (Nat.le_refl rest.length)

/-- MetricsCalculator.calculate_faithfulness_metrics (metrics.py lines 124 to
154).  The word-boundary search for a claim verb holds exactly when some
maximal word-character run of the lowercased sentence is one of the fixed verb
forms, which is how the boundary-delimited alternation matches. -/
def calculate_faithfulness_metrics (response : String) (sources : List SourceRec) :
    FaithfulnessMetrics :=
  let _ := sources
  let sentences := splitSent response.data
  { has_citations := citationSearch (pyLower response.data),
    claims_count :=
      sentences.countP (fun sent => (findWords (pyLower sent)).any (fun w => claimWords.contains w)) }

structure EvaluationResult where
  query : String
  workflow_id : String
  retrieval : RetrievalMetrics
  answer : AnswerMetrics
  faithfulness : FaithfulnessMetrics
  response : String
  sources : List SourceRec

/-- MetricsCalculator.evaluate_response (metrics.py lines 156 to 194). -/
def evaluate_response (query workflow_id response : String) (sources : List SourceRec) :
    EvaluationResult :=
  { query := query, workflow_id := workflow_id,
    retrieval := calculate_retrieval_metrics sources,
    answer := calculate_answer_metrics response sources,
    faithfulness := calculate_faithfulness_metrics response sources,
    response := response, sources := sources }

/-! The composite ranking of compare_workflows_on_query
    (tests/compare_workflows.py lines 85 to 99). -/

/-- The composite score assigned to one result (compare_workflows.py lines 88
to 93); the float weights 0.2 and 0.3 are the exact rationals here. -/
def compositeScore (r : EvaluationResult) : ℚ :=
  (r.retrieval.num_sources : ℚ) * (2 / 10) + r.retrieval.source_diversity * (2 / 10)
    + (r.answer.citation_count : ℚ) * (3 / 10) + r.answer.answer_source_overlap * (3 / 10)

/-- Stable descending insertion: a new element goes before an existing one
exactly when the existing score is at most the new score, so an element never
passes an equal-scored element that was inserted after it. -/
def insertDesc (x : String × ℚ) : List (String × ℚ) → List (String × ℚ)
  | [] => [x]
  | y :: ys => if y.2 ≤ x.2 then x :: y :: ys else y :: insertDesc x ys

/-- The unique stable descending sort by score, realizing the Python
list.sort with a score key and reverse set (Timsort is stable, and reverse
keeps equal elements in original order). -/
def sortDesc : List (String × ℚ) → List (String × ℚ)
  | [] => []
  | x :: xs => insertDesc x (sortDesc xs)

/-- The ranked list built by compare_workflows_on_query lines 85 to 96: the
workflow id paired with the composite score, sorted descending by score. -/
def rankedWorkflows (results : List EvaluationResult) : List (String × ℚ) :=
  sortDesc (results.map (fun r => (r.workflow_id, compositeScore r)))

/-! Concrete streams used for counterexamples and witnesses. -/

/-- A body whose second line is not valid JSON. -/
def cexBody : String := "\x7b\"event\": \"text_chunk\", \"data\": \"hi\"\x7d\nnot json"

/-- The same body with the invalid line removed. -/
def cexBodyPruned : String := "\x7b\"event\": \"text_chunk\", \"data\": \"hi\"\x7d"

def cexParsed : ParsedStream :=
  { conversation_id := Json.str "", run_id := Json.str "", response := "hi",
    sources := Json.arr [], conversation_history := Json.arr [] }

/-- A stream with two sources events and two stream_end events. -/
def lwwLines : List (List Char) :=
  ["\x7b\"event\": \"sources\", \"data\": [1]\x7d".data,
   "\x7b\"event\": \"sources\", \"data\": [2]\x7d".data,
   "\x7b\"event\": \"stream_end\", \"data\": \x7b\"conversation_history\": []\x7d\x7d".data,
   "\x7b\"event\": \"stream_end\", \"data\": \x7b\"conversation_history\": [\x7b\"role\": \"user\", \"content\": \"q\"\x7d]\x7d\x7d".data]

def lwwParsed : ParsedStream :=
  { conversation_id := Json.str "", run_id := Json.str "", response := "",
    sources := Json.arr [Json.num 2 0],
    conversation_history :=
      Json.arr [Json.obj [("role", Json.str "user"), ("content", Json.str "q")]] }

/-! Lemmas about the line fold of the NDJSON parse. -/

theorem runLines_append :
    ∀ (ls1 ls2 : List (List Char)) (acc : StreamAcc),
      runLines acc (ls1 ++ ls2)
        = match runLines acc ls1 with
          | none => none
          | some a => runLines a ls2
  | [], _, _ => rfl
  | l :: ls1, ls2, acc => by
    rw [List.cons_append, runLines, runLines]
    cases processLine acc l with
    | none => rfl
    | some a => exact runLines_append ls1 ls2 a

theorem processEvent_ignored (acc : StreamAcc) (e : Json) (h : eventIgnored e = true) :
    processEvent acc e = some acc := by
  cases e with
  | obj fields =>
    simp only [eventIgnored] at h
    simp only [processEvent]
    cases hg : getField fields "event" with
    | none => simp
    | some v =>
      rw [hg] at h
      cases v with
      | str t =>
        simp only [Bool.not_eq_eq_eq_not, Bool.not_true, Bool.or_eq_false_iff,
          decide_eq_false_iff_not] at h
        obtain ⟨⟨⟨h1, h2⟩, h3⟩, h4⟩ := h
        simp [h1, h2, h3, h4]
      | null => simp
      | bool b => simp
      | num m e10 => simp
      | arr xs => simp
      | obj fs => simp
  | null => simp [eventIgnored] at h
  | bool b => simp [eventIgnored] at h
  | num m e10 => simp [eventIgnored] at h
  | str s => simp [eventIgnored] at h
  | arr xs => simp [eventIgnored] at h

theorem runLines_filter :
    ∀ (ls : List (List Char)) (acc : StreamAcc),
      runLines acc ls = runLines acc (ls.filter (fun l => !l.isEmpty))
  | [], _ => rfl
  | l :: ls, acc => by
    by_cases he : l.isEmpty
    · have hskip : processLine acc l = some acc := by simp [processLine, he]
      rw [runLines, hskip, List.filter_cons]
      simp only [he, Bool.not_true]
      exact runLines_filter ls acc
    · rw [runLines, List.filter_cons]
      simp only [Bool.not_eq_true'] at he
      simp only [he, Bool.not_false, if_true]
      rw [runLines]
      cases processLine acc l with
      | none => rfl
      | some a => exact runLines_filter ls a

theorem parseLines_filter (ls : List (List Char)) :
    parseLines ls = parseLines (ls.filter (fun l => !l.isEmpty)) := by
  rw [parseLines, parseLines, runLines_filter ls initAcc]

theorem BlankInsertion.filter_eq {ls ls' : List (List Char)} (h : BlankInsertion ls ls') :
    ls'.filter (fun l => !l.isEmpty) = ls.filter (fun l => !l.isEmpty) := by
  induction h with
  | nil => rfl
  | keep l _ ih => rw [List.filter_cons, List.filter_cons, ih]
  | blank _ ih => rw [List.filter_cons]; simpa using ih

/-- C5: interspersing any number of blank lines anywhere in the NDJSON body
leaves the parse result identical to the parse of the body with the blank
lines removed: the loop skips falsy lines before json.loads runs. -/
theorem parse_blank_line_insensitive {ls ls' : List (List Char)}
    (h : BlankInsertion ls ls') :
    parseLines ls' = parseLines (ls.filter (fun l => !l.isEmpty)) := by
  rw [parseLines_filter ls', BlankInsertion.filter_eq h]

theorem parse_blank_line_insensitive_witness :
    parseLines [[], "\x7b\"event\": \"text_chunk\", \"data\": \"ok\"\x7d".data, []]
      = parseLines
          ([ "\x7b\"event\": \"text_chunk\", \"data\": \"ok\"\x7d".data ].filter
            (fun l => !l.isEmpty)) :=
  parse_blank_line_insensitive
    (BlankInsertion.blank (BlankInsertion.keep _ (BlankInsertion.blank BlankInsertion.nil)))

/-- One successful loop iteration, described line-locally: its effect on the
chunk list, the source list and the conversation history is exactly what the
specification-side line readings say. -/
theorem processLine_effects (acc a : StreamAcc) (l : List Char)
    (h : processLine acc l = some a) :
    a.chunks = acc.chunks ++ (lineChunk l).toList
    ∧ a.sources = (lineSourcesData l).getD acc.sources
    ∧ a.conversation_history = (lineHistoryData l).getD acc.conversation_history := by
  rw [processLine] at h
  rw [lineChunk, lineSourcesData, lineHistoryData]
  by_cases he : l.isEmpty
  · rw [if_pos he] at h
    cases h
    rw [if_pos he, if_pos he, if_pos he]
    simp
  · rw [if_neg he] at h
    rw [if_neg he, if_neg he, if_neg he]
    cases hj : jsonLoads l with
    | none => rw [hj] at h; cases h
    | some e =>
      simp only [hj] at h ⊢
      cases e with
      | obj fields =>
        simp only [processEvent] at h
        cases hg : getField fields "event" with
        | none =>
          simp only [hg] at h ⊢
          cases h
          simp
        | some v =>
          cases v with
          | str t =>
            simp only [hg] at h ⊢
            by_cases h1 : t = "stream_start"
            · rw [if_pos h1] at h
              cases h
              simp [h1]
            · rw [if_neg h1] at h
              by_cases h2 : t = "sources"
              · rw [if_pos h2] at h
                cases h
                simp [h2]
              · rw [if_neg h2] at h
                by_cases h3 : t = "text_chunk"
                · rw [if_pos h3] at h
                  cases h
                  simp [h3]
                · rw [if_neg h3] at h
                  by_cases h4 : t = "stream_end"
                  · rw [if_pos h4] at h
                    cases hd : (getField fields "data").getD (Json.obj []) with
                    | obj dfields =>
                      rw [hd] at h
                      cases h
                      simp [h4, hd, h1, h2, h3]
                    | null => rw [hd] at h; cases h
                    | bool b => rw [hd] at h; cases h
                    | num m e10 => rw [hd] at h; cases h
                    | str s => rw [hd] at h; cases h
                    | arr xs => rw [hd] at h; cases h
                  · rw [if_neg h4] at h
                    cases h
                    simp [h1, h2, h3, h4]
          | null => simp only [hg] at h ⊢; cases h; simp
          | bool b => simp only [hg] at h ⊢; cases h; simp
          | num m e10 => simp only [hg] at h ⊢; cases h; simp
          | arr xs => simp only [hg] at h ⊢; cases h; simp
          | obj fs => simp only [hg] at h ⊢; cases h; simp
      | null => cases h
      | bool b => cases h
      | num m e10 => cases h
      | str s => cases h
      | arr xs => cases h

/-- The accumulator after a successful fold, described by the
specification-side line readings: chunks accumulate in order, while sources
and conversation history are last-write-wins. -/
theorem runLines_spec :
    ∀ (lines : List (List Char)) (acc acc2 : StreamAcc),
      runLines acc lines = some acc2 →
      acc2.chunks = acc.chunks ++ streamFragments lines
      ∧ acc2.sources = (lines.filterMap lineSourcesData).getLastD acc.sources
      ∧ acc2.conversation_history
          = (lines.filterMap lineHistoryData).getLastD acc.conversation_history
  | [], acc, acc2, h => by
    cases h
    simp [streamFragments]
  | l :: ls, acc, acc2, h => by
    rw [runLines] at h
    cases hp : processLine acc l with
    | none => rw [hp] at h; cases h
    | some a =>
      rw [hp] at h
      obtain ⟨hc, hs, hh⟩ := processLine_effects acc a l hp
      obtain ⟨ihc, ihs, ihh⟩ := runLines_spec ls a acc2 h
      refine ⟨?_, ?_, ?_⟩
      · rw [ihc, hc, streamFragments, streamFragments, List.filterMap_cons]
        cases lineChunk l with
        | none => simp
        | some d => simp
      · rw [ihs, hs, List.filterMap_cons]
        cases lineSourcesData l with
        | none => rfl
        | some d => rw [List.getLastD_cons]; rfl
      · rw [ihh, hh, List.filterMap_cons]
        cases lineHistoryData l with
        | none => rfl
        | some d => rw [List.getLastD_cons]; rfl

/-- C3: when the parse succeeds, the response text is the separator-free
concatenation, in arrival order, of the fragments carried by the text_chunk
events of the stream. -/
theorem response_concat_of_text_chunks (lines : List (List Char)) (fs : List String)
    (r : ParsedStream) (hf : streamFragments lines = fs.map Json.str)
    (hp : parseLines lines = some r) : r.response = concatAll fs := by
  rw [parseLines] at hp
  cases hrun : runLines initAcc lines with
  | none => rw [hrun] at hp; cases hp
  | some acc =>
    rw [hrun] at hp
    have hchunks := (runLines_spec lines initAcc acc hrun).1
    have hinit : initAcc.chunks = [] := rfl
    rw [hinit, List.nil_append, hf] at hchunks
    have hjoin : ∀ gs : List String, joinStrs (gs.map Json.str) = some (concatAll gs) := by
      intro gs
      induction gs with
      | nil => rfl
      | cons g gs ih => rw [List.map_cons, joinStrs, ih]; rfl
    have hp2 : (match joinStrs acc.chunks with
        | none => (none : Option ParsedStream)
        | some resp =>
          some { conversation_id := acc.conversation_id, run_id := acc.run_id,
                 response := resp, sources := acc.sources,
                 conversation_history := acc.conversation_history }) = some r := hp
    rw [hchunks, hjoin fs] at hp2
    cases hp2
    rfl

theorem response_concat_of_text_chunks_witness :
    (ParsedStream.mk (Json.str "") (Json.str "") "Hello" (Json.arr []) (Json.arr [])).response
      = concatAll ["Hel", "lo"] :=
  response_concat_of_text_chunks
    ["\x7b\"event\": \"text_chunk\", \"data\": \"Hel\"\x7d".data,
     "\x7b\"event\": \"text_chunk\", \"data\": \"lo\"\x7d".data]
    ["Hel", "lo"] _ rfl rfl

/-- C4: when the parse succeeds and the stream carries two or more sources
events, the result's source list is the data payload of the last one alone;
likewise the conversation history for two or more stream_end events.  Earlier
events of the same kind are fully overwritten, never merged. -/
theorem sources_history_last_write_wins (lines : List (List Char)) (r : ParsedStream)
    (hp : parseLines lines = some r) :
    (2 ≤ (lines.filterMap lineSourcesData).length →
      (lines.filterMap lineSourcesData).getLast? = some r.sources)
    ∧ (2 ≤ (lines.filterMap lineHistoryData).length →
      (lines.filterMap lineHistoryData).getLast? = some r.conversation_history) := by
  rw [parseLines] at hp
  cases hrun : runLines initAcc lines with
  | none => rw [hrun] at hp; cases hp
  | some acc =>
    rw [hrun] at hp
    obtain ⟨-, hs, hh⟩ := runLines_spec lines initAcc acc hrun
    have hp2 : (match joinStrs acc.chunks with
        | none => (none : Option ParsedStream)
        | some resp =>
          some { conversation_id := acc.conversation_id, run_id := acc.run_id,
                 response := resp, sources := acc.sources,
                 conversation_history := acc.conversation_history }) = some r := hp
    cases hjoin : joinStrs acc.chunks with
    | none => rw [hjoin] at hp2; cases hp2
    | some resp =>
      rw [hjoin] at hp2
      cases hp2
      have hlast : ∀ (l : List Json) (d : Json), 2 ≤ l.length → l.getLast? = some (l.getLastD d) := by
        intro l d hl
        cases l with
        | nil => simp at hl
        | cons x xs =>
          rw [List.getLastD_cons, List.getLast?_cons]
          cases hx : xs.getLast? with
          | none =>
            rw [List.getLast?_eq_none_iff] at hx
            subst hx
            simp at hl
          | some y =>
            have : xs.getLastD x = y := by rw [List.getLastD_eq_getLast?, hx]; rfl
            rw [this]
            rfl
      constructor
      · intro h2
        exact (hlast _ initAcc.sources h2).trans (congrArg some hs.symm)
      · intro h2
        exact (hlast _ initAcc.conversation_history h2).trans (congrArg some hh.symm)

theorem sources_history_last_write_wins_witness :
    (lwwLines.filterMap lineSourcesData).getLast? = some lwwParsed.sources
    ∧ (lwwLines.filterMap lineHistoryData).getLast? = some lwwParsed.conversation_history :=
  ⟨(sources_history_last_write_wins lwwLines lwwParsed rfl).1 (by decide),
   (sources_history_last_write_wins lwwLines lwwParsed rfl).2 (by decide)⟩

/-- C1 amended: an event line whose tag is missing or unrecognized is silently
ignored, and the parse result equals the parse with that line removed; but a
line that is not valid JSON is not ignored: json.loads raises there, with no
surrounding try, and the whole parse fails. -/
theorem ndjson_line_leniency :
    (∀ (pre post : List (List Char)) (l : List Char) (e : Json),
        jsonLoads l = some e → eventIgnored e = true →
        parseLines (pre ++ l :: post) = parseLines (pre ++ post))
    ∧ (∀ (pre post : List (List Char)) (l : List Char),
        l.isEmpty = false → jsonLoads l = none → parseLines (pre ++ l :: post) = none) := by
  constructor
  · intro pre post l e hje hig
    rw [parseLines, parseLines, runLines_append, runLines_append]
    cases h0 : runLines initAcc pre with
    | none => rfl
    | some a =>
      have hne : ¬ (l.isEmpty = true) := by
        intro hempty
        cases l with
        | nil => exact Option.noConfusion hje
        | cons c cs => simp [List.isEmpty] at hempty
      have hl : processLine a l = some a := by
        rw [processLine, if_neg hne, hje]
        exact processEvent_ignored a e hig
      simp only [runLines, hl]
  · intro pre post l hne hj
    rw [parseLines, runLines_append]
    cases h0 : runLines initAcc pre with
    | none => rfl
    | some a =>
      have hl : processLine a l = none := by
        rw [processLine, if_neg (by rw [hne]; exact Bool.false_ne_true), hj]
      simp only [runLines, hl]

theorem ndjson_line_leniency_witness :
    parseLines (["\x7b\"event\": \"text_chunk\", \"data\": \"hi\"\x7d".data]
        ++ "\x7b\"event\": \"workflow_step\"\x7d".data :: [])
      = parseLines (["\x7b\"event\": \"text_chunk\", \"data\": \"hi\"\x7d".data] ++ []) :=
  ndjson_line_leniency.1 _ [] _ (Json.obj [("event", Json.str "workflow_step")]) rfl rfl

/-- C1 counterexample: on a body whose second line is not valid JSON, the
stream parse raises instead of ignoring the line, so its result differs from
the parse of the body with that line removed. -/
theorem invalid_json_line_not_ignored :
    parse_ndjson_stream cexBody = none
    ∧ parse_ndjson_stream cexBodyPruned = some cexParsed
    ∧ parse_ndjson_stream cexBody ≠ parse_ndjson_stream cexBodyPruned := by
  refine ⟨rfl, rfl, ?_⟩
  intro hcontra
  rw [show parse_ndjson_stream cexBody = none from rfl,
    show parse_ndjson_stream cexBodyPruned = some cexParsed from rfl] at hcontra
  cases hcontra

theorem searchSubstr_here (pat s : List Char) (h : pat.isPrefixOf s = true) :
    searchSubstr pat s = true := by
  cases s with
  | nil => rw [searchSubstr]; exact h
  | cons c cs => rw [searchSubstr, h, Bool.true_or]

theorem searchSubstr_cons (pat s : List Char) (c : Char) (h : searchSubstr pat s = true) :
    searchSubstr pat (c :: s) = true := by
  rw [searchSubstr, h, Bool.or_true]

theorem searchSubstr_of_surround (pat l₂ : List Char) :
    ∀ l₁ : List Char, searchSubstr pat (l₁ ++ (pat ++ l₂)) = true
  | [] =>
    searchSubstr_here pat (pat ++ l₂) (List.isPrefixOf_iff_prefix.mpr (List.prefix_append pat l₂))
  | c :: l₁ => by
    rw [List.cons_append]
    exact searchSubstr_cons _ _ _ (searchSubstr_of_surround pat l₂ l₁)

/-- C2 amended: run_workflow raises the connectivity error, whose message
contains the target base URL, exactly when the transport raises; it raises the
execution error carrying the raw response body exactly when the service
replies with a non-success status; and on a success status it returns a
WorkflowResult only when the body decodes, while a body that fails to decode
makes the undecorated decode error escape instead. -/
theorem run_workflow_error_taxonomy (base : String) (t : Transport) :
    ((∃ e, t = Transport.raises e)
        ↔ (∃ m, run_workflow base t = Except.error (RunFailure.connectionError m)))
    ∧ (∀ m, run_workflow base t = Except.error (RunFailure.connectionError m) →
        searchSubstr base.data m.data = true)
    ∧ ((∃ s b, t = Transport.response s b ∧ isSuccessStatus s = false)
        ↔ (∃ m, run_workflow base t = Except.error (RunFailure.runtimeError m)))
    ∧ (∀ s b, t = Transport.response s b → isSuccessStatus s = false →
        run_workflow base t
          = Except.error (RunFailure.runtimeError ("Workflow execution failed: " ++ b)))
    ∧ (∀ s b, t = Transport.response s b → isSuccessStatus s = true →
        (∀ w, decodeBody b = some w → run_workflow base t = Except.ok w)
        ∧ (decodeBody b = none → run_workflow base t = Except.error RunFailure.uncaught)) := by
  cases t with
  | raises e =>
    refine ⟨⟨fun _ => ⟨_, rfl⟩, fun _ => ⟨e, rfl⟩⟩, ?_, ?_, ?_, ?_⟩
    · intro m hm
      rw [run_workflow] at hm
      injection hm with h1
      injection h1 with h2
      rw [← h2]
      have hd : ("Failed to connect to lex-llm at " ++ base ++ ": " ++ e).data
          = "Failed to connect to lex-llm at ".data ++ (base.data ++ (": ".data ++ e.data)) := by
        rw [String.data_append, String.data_append, String.data_append,
          List.append_assoc, List.append_assoc]
      rw [hd]
      exact searchSubstr_of_surround base.data (": ".data ++ e.data) _
    · constructor
      · rintro ⟨s, b, hsb, -⟩; cases hsb
      · rintro ⟨m, hm⟩
        rw [run_workflow] at hm
        injection hm with h1
        cases h1
    · intro s b hsb; cases hsb
    · intro s b hsb; cases hsb
  | response s b =>
    by_cases hs : isSuccessStatus s = true
    · have hrw : run_workflow base (Transport.response s b)
          = match decodeBody b with
            | some w => Except.ok w
            | none => Except.error RunFailure.uncaught := by
        rw [run_workflow, if_pos hs]
      refine ⟨?_, ?_, ?_, ?_, ?_⟩
      · constructor
        · rintro ⟨e, he⟩; cases he
        · rintro ⟨m, hm⟩
          rw [hrw] at hm
          cases hd : decodeBody b with
          | some w => rw [hd] at hm; cases hm
          | none =>
            rw [hd] at hm
            injection hm with h1
            cases h1
      · intro m hm
        rw [hrw] at hm
        cases hd : decodeBody b with
        | some w => rw [hd] at hm; cases hm
        | none =>
          rw [hd] at hm
          injection hm with h1
          cases h1
      · constructor
        · rintro ⟨s2, b2, hsb, hf⟩
          injection hsb with hseq hbeq
          rw [← hseq] at hf
          rw [hf] at hs
          cases hs
        · rintro ⟨m, hm⟩
          rw [hrw] at hm
          cases hd : decodeBody b with
          | some w => rw [hd] at hm; cases hm
          | none =>
            rw [hd] at hm
            injection hm with h1
            cases h1
      · intro s2 b2 hsb hf
        cases hsb
        rw [hf] at hs
        cases hs
      · rintro s2 b2 hsb -
        cases hsb
        constructor
        · intro w hw
          rw [hrw]
          simp only [hw]
        · intro hw
          rw [hrw]
          simp only [hw]
    · have hrw : run_workflow base (Transport.response s b)
          = Except.error (RunFailure.runtimeError ("Workflow execution failed: " ++ b)) := by
        rw [run_workflow, if_neg hs]
      refine ⟨?_, ?_, ?_, ?_, ?_⟩
      · constructor
        · rintro ⟨e, he⟩; cases he
        · rintro ⟨m, hm⟩
          rw [hrw] at hm
          injection hm with h1
          cases h1
      · intro m hm
        rw [hrw] at hm
        injection hm with h1
        cases h1
      · exact ⟨fun _ => ⟨_, hrw⟩,
          fun _ => ⟨s, b, rfl, by rw [Bool.eq_false_iff]; exact hs⟩⟩
      · rintro s2 b2 hsb -
        cases hsb
        exact hrw
      · intro s2 b2 hsb ht
        cases hsb
        exact absurd ht hs

theorem run_workflow_error_taxonomy_witness :
    run_workflow "http://localhost:8001" (Transport.response 404 "bad")
      = Except.error (RunFailure.runtimeError ("Workflow execution failed: " ++ "bad")) :=
  ((run_workflow_error_taxonomy "http://localhost:8001"
      (Transport.response 404 "bad")).2.2.2.1) 404 "bad" rfl (by decide)

/-- C2 counterexample: with the transport succeeding and HTTP status 200, a
response body that is not valid NDJSON makes run_workflow raise the uncaught
decode error: it neither returns a WorkflowResult nor raises the connectivity
or execution error, so the case split of the claim is not exhaustive. -/
theorem run_workflow_success_status_no_result :
    isSuccessStatus 200 = true
    ∧ (∀ w, run_workflow "http://localhost:8001" (Transport.response 200 "oops")
        ≠ Except.ok w)
    ∧ (∀ m, run_workflow "http://localhost:8001" (Transport.response 200 "oops")
        ≠ Except.error (RunFailure.connectionError m))
    ∧ (∀ m, run_workflow "http://localhost:8001" (Transport.response 200 "oops")
        ≠ Except.error (RunFailure.runtimeError m)) := by
  have hred : run_workflow "http://localhost:8001" (Transport.response 200 "oops")
      = Except.error RunFailure.uncaught := rfl
  refine ⟨rfl, ?_, ?_, ?_⟩
  · intro w hw
    rw [hred] at hw
    cases hw
  · intro m hm
    rw [hred] at hm
    injection hm with h1
    cases h1
  · intro m hm
    rw [hred] at hm
    injection hm with h1
    cases h1

/-- C6: health_check is a total boolean function of the transport outcome (the
bare except clause swallows every exception), and it returns true exactly when
the GET on the health route yielded HTTP status 200. -/
theorem health_check_true_iff_200 (t : Transport) :
    health_check t = true ↔ ∃ body, t = Transport.response 200 body := by
  cases t with
  | raises m =>
    simp only [health_check, healthAttempt]
    constructor
    · intro h; cases h
    · rintro ⟨b, hb⟩; cases hb
  | response s b =>
    simp only [health_check, healthAttempt, beq_iff_eq]
    constructor
    · intro h; exact ⟨b, by rw [h]⟩
    · rintro ⟨b2, hb⟩
      cases hb
      rfl

/-! Lemmas about the word tokenizer: tokens do not cross a space, so the
    tokens of a space-joined title list are the tokens of the titles. -/

theorem findWordsAux_append_space (ys : List Char) :
    ∀ (xs cur : List Char),
      findWordsAux (xs ++ ' ' :: ys) cur = findWordsAux xs cur ++ findWordsAux ys []
  | [], cur => by
    rw [List.nil_append, findWordsAux, findWordsAux]
    rw [if_neg (by decide : ¬ (isWordChar ' ' = true))]
    by_cases hc : cur.isEmpty
    · rw [if_pos hc, if_pos hc, List.nil_append]
    · rw [if_neg hc, if_neg hc, List.singleton_append]
  | c :: xs, cur => by
    rw [List.cons_append, findWordsAux, findWordsAux]
    by_cases hw : isWordChar c
    · rw [if_pos hw, if_pos hw]
      exact findWordsAux_append_space ys xs (c :: cur)
    · rw [if_neg hw, if_neg hw]
      by_cases hc : cur.isEmpty
      · rw [if_pos hc, if_pos hc]
        exact findWordsAux_append_space ys xs []
      · rw [if_neg hc, if_neg hc, List.cons_append, findWordsAux_append_space ys xs []]

theorem findWords_append_space (xs ys : List Char) :
    findWords (xs ++ ' ' :: ys) = findWords xs ++ findWords ys :=
  findWordsAux_append_space ys xs []

theorem pyLower_append (a b : List Char) : pyLower (a ++ b) = pyLower a ++ pyLower b :=
  List.map_append lowerChar a b

theorem findWords_lower_joinSp :
    ∀ ts : List (List Char),
      findWords (pyLower (joinSp ts)) = (ts.map (fun t => findWords (pyLower t))).flatten
  | [] => rfl
  | [t] => by
    have hj : joinSp [t] = t := rfl
    rw [hj]
    simp
  | t :: t2 :: ts => by
    have hj : joinSp (t :: t2 :: ts) = t ++ ' ' :: joinSp (t2 :: ts) := rfl
    rw [hj, pyLower_append]
    have hsp : pyLower (' ' :: joinSp (t2 :: ts)) = ' ' :: pyLower (joinSp (t2 :: ts)) := rfl
    rw [hsp, findWords_append_space, findWords_lower_joinSp (t2 :: ts)]
    simp

/-- The words variable of calculate_retrieval_metrics equals the
specification-side per-title tokens: lowering commutes with the space join,
and tokens do not cross the joining spaces. -/
theorem retrieval_words_eq (sources : List SourceRec) :
    findWords (pyLower (joinSp (sources.map (fun s => (getTitle s).data))))
      = titleTokens sources := by
  rw [findWords_lower_joinSp, titleTokens, List.map_map]
  rfl

theorem retrieval_diversity_eq (sources : List SourceRec) (hne : sources ≠ []) :
    (calculate_retrieval_metrics sources).source_diversity
      = (if titleTokens sources = [] then (0 : ℚ)
         else ((titleTokens sources).dedup.length : ℚ) / ((titleTokens sources).length : ℚ)) := by
  have hie : sources.isEmpty = false := by
    cases sources with
    | nil => exact absurd rfl hne
    | cons a l => rfl
  rw [calculate_retrieval_metrics, if_neg (by rw [hie]; exact Bool.false_ne_true)]
  dsimp only
  rw [retrieval_words_eq]
  by_cases ht : titleTokens sources = []
  · rw [if_pos ht, if_pos (by rw [ht]; rfl)]
  · have hti : (titleTokens sources).isEmpty = false := by
      cases htt : titleTokens sources with
      | nil => exact absurd htt ht
      | cons a l => rfl
    rw [if_neg ht, if_neg (by rw [hti]; exact Bool.false_ne_true)]

/-- C7: calculate_retrieval_metrics of the empty source list is the all-zero
record; on a nonempty source list the diversity equals the number of distinct
lowercase word tokens across all titles divided by the total number of word
tokens across all titles, with zero for zero tokens; and on the two sources
titled ab cd and cd ef the diversity is three quarters. -/
theorem retrieval_metrics_spec (sources : List SourceRec) (hne : sources ≠ []) :
    calculate_retrieval_metrics []
        = { num_sources := 0, avg_source_length := 0, source_diversity := 0 }
    ∧ (calculate_retrieval_metrics sources).source_diversity
        = (if titleTokens sources = [] then (0 : ℚ)
           else ((titleTokens sources).dedup.length : ℚ) / ((titleTokens sources).length : ℚ))
    ∧ (calculate_retrieval_metrics
          [{ title := some "ab cd" }, { title := some "cd ef" }]).source_diversity = 3 / 4 := by
  refine ⟨rfl, retrieval_diversity_eq sources hne, ?_⟩
  rw [retrieval_diversity_eq [{ title := some "ab cd" }, { title := some "cd ef" }]
      (List.cons_ne_nil _ _)]
  rw [if_neg (by decide)]
  rw [show (titleTokens [{ title := some "ab cd" }, { title := some "cd ef" }]).dedup.length
        = 3 from rfl,
    show (titleTokens [{ title := some "ab cd" }, { title := some "cd ef" }]).length
        = 4 from rfl]
  norm_num

theorem retrieval_metrics_spec_witness :
    (calculate_retrieval_metrics
        [{ title := some "ab cd" }, { title := some "cd ef" }]).source_diversity = 3 / 4 :=
  (retrieval_metrics_spec [{ title := some "ab cd" }, { title := some "cd ef" }]
    (List.cons_ne_nil _ _)).2.2

/-! Lemmas for the answer and source word-set overlap. -/

theorem isEmpty_iff_nil {α : Type} (l : List α) : l.isEmpty = true ↔ l = [] := by
  cases l <;> simp

/-- The Python set-intersection size: counting the deduplicated response words
that occur among the source words is the cardinality of the intersection of
the two finite word sets. -/
theorem overlap_card (l₁ l₂ : List (List Char)) :
    (l₁.dedup.filter (fun w => w ∈ l₂.dedup)).length = (l₁.toFinset ∩ l₂.toFinset).card := by
  have hnd : (l₁.dedup.filter (fun w => w ∈ l₂.dedup)).Nodup :=
    List.Nodup.filter _ (List.nodup_dedup l₁)
  rw [← List.toFinset_card_of_nodup hnd]
  congr 1
  ext x
  simp only [List.mem_toFinset, List.mem_filter, List.mem_dedup, Finset.mem_inter,
    decide_eq_true_eq]

/-- C8: the answer_source_overlap of calculate_answer_metrics always lies in
the closed unit interval; it is zero when either the response word set or the
source-title word set is empty; and otherwise it equals the cardinality of the
intersection of the two lowercase word sets divided by the cardinality of the
response word set. -/
theorem answer_overlap_spec (response : String) (sources : List SourceRec) :
    (0 ≤ (calculate_answer_metrics response sources).answer_source_overlap
      ∧ (calculate_answer_metrics response sources).answer_source_overlap ≤ 1)
    ∧ ((findWords (pyLower response.data)).toFinset = ∅
        ∨ ((sources.map (fun s => findWords (pyLower (getTitle s).data))).flatten).toFinset = ∅ →
        (calculate_answer_metrics response sources).answer_source_overlap = 0)
    ∧ ((findWords (pyLower response.data)).toFinset ≠ ∅ →
        ((sources.map (fun s => findWords (pyLower (getTitle s).data))).flatten).toFinset ≠ ∅ →
        (calculate_answer_metrics response sources).answer_source_overlap
          = (((findWords (pyLower response.data)).toFinset
                ∩ ((sources.map (fun s =>
                      findWords (pyLower (getTitle s).data))).flatten).toFinset).card : ℚ)
              / ((findWords (pyLower response.data)).toFinset.card : ℚ)) := by
  set rl := findWords (pyLower response.data) with hrl
  set sl := (sources.map (fun s => findWords (pyLower (getTitle s).data))).flatten with hsl
  have hov : (calculate_answer_metrics response sources).answer_source_overlap
      = if ¬ (rl.dedup).isEmpty ∧ ¬ (sl.dedup).isEmpty then
          ((rl.dedup.filter (fun w => w ∈ sl.dedup)).length : ℚ) / ((rl.dedup).length : ℚ)
        else 0 := rfl
  have hrt : rl.dedup.isEmpty = true ↔ rl.toFinset = ∅ := by
    rw [isEmpty_iff_nil, List.dedup_eq_nil, ← List.toFinset_eq_empty_iff]
  have hst : sl.dedup.isEmpty = true ↔ sl.toFinset = ∅ := by
    rw [isEmpty_iff_nil, List.dedup_eq_nil, ← List.toFinset_eq_empty_iff]
  refine ⟨?_, ?_, ?_⟩
  · rw [hov]
    by_cases hc : ¬ rl.dedup.isEmpty ∧ ¬ sl.dedup.isEmpty
    · rw [if_pos hc]
      constructor
      · exact div_nonneg (Nat.cast_nonneg _) (Nat.cast_nonneg _)
      · have hlen : 0 < rl.dedup.length := by
          cases hd : rl.dedup with
          | nil => exact absurd (by rw [hd]; rfl) hc.1
          | cons a l => simp
        rw [div_le_one (by exact_mod_cast hlen)]
        exact_mod_cast List.length_filter_le _ _
    · rw [if_neg hc]
      norm_num
  · intro hor
    rw [hov, if_neg]
    intro hand
    rcases hor with h0 | h0
    · exact hand.1 (hrt.mpr h0)
    · exact hand.2 (hst.mpr h0)
  · intro hrne hsne
    have hc : ¬ rl.dedup.isEmpty ∧ ¬ sl.dedup.isEmpty :=
      ⟨fun h => hrne (hrt.mp h), fun h => hsne (hst.mp h)⟩
    rw [hov, if_pos hc, overlap_card rl sl, List.card_toFinset]

theorem answer_overlap_spec_witness :
    (calculate_answer_metrics "ab cd xx" [{ title := some "cd ef" }]).answer_source_overlap
      = (((findWords (pyLower "ab cd xx".data)).toFinset
            ∩ (([{ title := some "cd ef" }].map (fun s =>
                  findWords (pyLower (getTitle s).data))).flatten).toFinset).card : ℚ)
          / ((findWords (pyLower "ab cd xx".data)).toFinset.card : ℚ) :=
  (answer_overlap_spec "ab cd xx" [{ title := some "cd ef" }]).2.2 (by decide) (by decide)

/-! Lemmas relating regex search to regex match counting. -/

theorem searchSubstr_iff_count (pat : List Char) (hne : pat ≠ []) :
    ∀ s : List Char, searchSubstr pat s = true ↔ 1 ≤ countSubstr pat s
  | [] => by
    rw [searchSubstr, countSubstr]
    constructor
    · intro h
      cases pat with
      | nil => exact absurd rfl hne
      | cons p ps => cases h
    · intro h
      omega
  | c :: rest => by
    rw [searchSubstr, countSubstr]
    by_cases hp : pat.isPrefixOf (c :: rest) = true
    · rw [dif_pos ⟨hp, hne⟩, hp, Bool.true_or]
      constructor
      · intro _; omega
      · intro _; rfl
    · rw [dif_neg (fun hand => hp hand.1)]
      have hp2 : pat.isPrefixOf (c :: rest) = false := Bool.eq_false_iff.mpr hp
      rw [hp2, Bool.false_or]
      exact searchSubstr_iff_count pat hne rest

theorem searchBracket_iff_count : ∀ s : List Char, searchBracket s = true ↔ 1 ≤ countBracket s
  | [] => by
    rw [searchBracket, countBracket]
    constructor
    · intro h; cases h
    · intro h; omega
  | c :: rest => by
    rw [searchBracket, countBracket]
    by_cases hc : c = '['
    · rw [if_pos hc, if_pos hc]
      cases hsc : scanToClose rest with
      | some r2 =>
        simp only [hsc, Option.isSome_some, Bool.true_or]
        constructor
        · intro _; omega
        · intro _; trivial
      | none =>
        simp only [hsc, Option.isSome_none, Bool.false_or]
        exact searchBracket_iff_count rest
    · rw [if_neg hc, if_neg hc]
      exact searchBracket_iff_count rest

/-- C10: the has_citations flag of calculate_faithfulness_metrics is true
exactly when the citation_count of calculate_answer_metrics on the same
response is at least one; both are computed from the same four citation-marker
patterns over the lowercased response. -/
theorem has_citations_iff_citation_count_pos (response : String) (sources : List SourceRec) :
    (calculate_faithfulness_metrics response sources).has_citations = true
      ↔ 1 ≤ (calculate_answer_metrics response sources).citation_count := by
  have hb := searchBracket_iff_count (pyLower response.data)
  have h1 := searchSubstr_iff_count "ifølge".data (by decide) (pyLower response.data)
  have h2 := searchSubstr_iff_count "artikel".data (by decide) (pyLower response.data)
  have h3 := searchSubstr_iff_count "kilde".data (by decide) (pyLower response.data)
  show citationSearch (pyLower response.data) = true
    ↔ 1 ≤ citationCount (pyLower response.data)
  rw [citationSearch, citationCount]
  constructor
  · intro h
    rw [Bool.or_eq_true, Bool.or_eq_true, Bool.or_eq_true] at h
    rcases h with ((hx | hx) | hx) | hx
    · have := hb.mp hx; omega
    · have := h1.mp hx; omega
    · have := h2.mp hx; omega
    · have := h3.mp hx; omega
  · intro h
    have hd : 1 ≤ countBracket (pyLower response.data)
        ∨ 1 ≤ countSubstr "ifølge".data (pyLower response.data)
        ∨ 1 ≤ countSubstr "artikel".data (pyLower response.data)
        ∨ 1 ≤ countSubstr "kilde".data (pyLower response.data) := by omega
    rcases hd with hx | hx | hx | hx
    · rw [hb.mpr hx]; simp
    · rw [h1.mpr hx]; simp
    · rw [h2.mpr hx]; simp
    · rw [h3.mpr hx]; simp

/-! Lemmas about the stable descending insertion sort of the ranking. -/

theorem insertDesc_perm (x : String × ℚ) : ∀ l, (insertDesc x l).Perm (x :: l)
  | [] => List.Perm.refl _
  | y :: ys => by
    rw [insertDesc]
    by_cases hy : y.2 ≤ x.2
    · rw [if_pos hy]
    · rw [if_neg hy]
      exact (List.Perm.cons y (insertDesc_perm x ys)).trans (List.Perm.swap x y ys)

theorem sortDesc_perm : ∀ l, (sortDesc l).Perm l
  | [] => List.Perm.refl _
  | x :: xs => (insertDesc_perm x (sortDesc xs)).trans (List.Perm.cons x (sortDesc_perm xs))

theorem insertDesc_pairwise (x : String × ℚ) :
    ∀ l, l.Pairwise (fun a b => b.2 ≤ a.2) →
      (insertDesc x l).Pairwise (fun a b => b.2 ≤ a.2)
  | [], _ => List.pairwise_singleton _ _
  | y :: ys, h => by
    rw [insertDesc]
    rcases List.pairwise_cons.mp h with ⟨hy, hys⟩
    by_cases hxy : y.2 ≤ x.2
    · rw [if_pos hxy]
      refine List.pairwise_cons.mpr ⟨?_, h⟩
      intro b hb
      rcases List.mem_cons.mp hb with rfl | hb2
      · exact hxy
      · exact le_trans (hy b hb2) hxy
    · rw [if_neg hxy]
      refine List.pairwise_cons.mpr ⟨?_, insertDesc_pairwise x ys hys⟩
      intro b hb
      rcases List.mem_cons.mp ((insertDesc_perm x ys).mem_iff.mp hb) with rfl | hb3
      · exact (not_le.mp hxy).le
      · exact hy b hb3

theorem sortDesc_pairwise : ∀ l, (sortDesc l).Pairwise (fun a b => b.2 ≤ a.2)
  | [] => List.Pairwise.nil
  | x :: xs => insertDesc_pairwise x (sortDesc xs) (sortDesc_pairwise xs)

theorem insertDesc_filter_eq (x : String × ℚ) (s : ℚ) (hx : x.2 = s) :
    ∀ l, (insertDesc x l).filter (fun p => p.2 = s)
      = x :: l.filter (fun p => p.2 = s)
  | [] => by rw [insertDesc, List.filter_cons_of_pos (by simp [hx])]
  | y :: ys => by
    rw [insertDesc]
    by_cases hy : y.2 ≤ x.2
    · rw [if_pos hy, List.filter_cons_of_pos (by simp [hx])]
    · have hyne : ¬ (y.2 = s) := by
        intro he
        exact hy (by rw [he, ← hx])
      rw [if_neg hy, List.filter_cons_of_neg (by simp [hyne]),
        List.filter_cons_of_neg (by simp [hyne])]
      exact insertDesc_filter_eq x s hx ys

theorem insertDesc_filter_ne (x : String × ℚ) (s : ℚ) (hx : ¬ x.2 = s) :
    ∀ l, (insertDesc x l).filter (fun p => p.2 = s) = l.filter (fun p => p.2 = s)
  | [] => by rw [insertDesc, List.filter_cons_of_neg (by simp [hx])]
  | y :: ys => by
    rw [insertDesc]
    by_cases hy : y.2 ≤ x.2
    · rw [if_pos hy, List.filter_cons_of_neg (by simp [hx])]
    · rw [if_neg hy]
      by_cases hys : y.2 = s
      · rw [List.filter_cons_of_pos (by simp [hys]), List.filter_cons_of_pos (by simp [hys]),
          insertDesc_filter_ne x s hx ys]
      · rw [List.filter_cons_of_neg (by simp [hys]), List.filter_cons_of_neg (by simp [hys]),
          insertDesc_filter_ne x s hx ys]

theorem sortDesc_stable (s : ℚ) :
    ∀ l, (sortDesc l).filter (fun p => p.2 = s) = l.filter (fun p => p.2 = s)
  | [] => rfl
  | x :: xs => by
    rw [sortDesc]
    by_cases hx : x.2 = s
    · rw [insertDesc_filter_eq x s hx (sortDesc xs), sortDesc_stable s xs,
        List.filter_cons_of_pos (by simp [hx])]
    · rw [insertDesc_filter_ne x s hx (sortDesc xs), sortDesc_stable s xs,
        List.filter_cons_of_neg (by simp [hx])]

/-- C9: the composite ranking pairs every result with the score two tenths
num_sources plus two tenths source_diversity plus three tenths citation_count
plus three tenths answer_source_overlap, orders the pairs descending by score,
and is stable: for every score value, the pairs carrying it appear in their
original input order. -/
theorem composite_ranking_spec (results : List EvaluationResult) :
    (rankedWorkflows results).Perm
      (results.map (fun r => (r.workflow_id,
        (r.retrieval.num_sources : ℚ) * (2 / 10) + r.retrieval.source_diversity * (2 / 10)
          + (r.answer.citation_count : ℚ) * (3 / 10)
          + r.answer.answer_source_overlap * (3 / 10))))
    ∧ (rankedWorkflows results).Pairwise (fun a b => b.2 ≤ a.2)
    ∧ (∀ s : ℚ, (rankedWorkflows results).filter (fun p => p.2 = s)
        = (results.map (fun r => (r.workflow_id,
            (r.retrieval.num_sources : ℚ) * (2 / 10) + r.retrieval.source_diversity * (2 / 10)
              + (r.answer.citation_count : ℚ) * (3 / 10)
              + r.answer.answer_source_overlap * (3 / 10)))).filter (fun p => p.2 = s)) :=
  ⟨sortDesc_perm _, sortDesc_pairwise _, fun s => sortDesc_stable s _⟩

end LexEval
